import Mathlib

/-!
Shallow embedding of `phenoscore/hpo_phenotype/calc_hpo_sim.py` (class `SimScorer`).

Ontology terms and ids are strings; similarity scores are rationals (`ℚ`),
abstracting IEEE floats.  The externally supplied pairwise term scorer
(`phenopy`'s `Scorer.score_hpo_pair_hrss`, out of scope per the spec) is a
parameter `s : String → String → ℚ`.  Python dicts are association lists with
last-write-wins update; a raised `KeyError` is modelled by `Option`.
-/

/-- Python's substring test `'HP' in term`, on the character list of the term. -/
def hpSub : List Char → Bool
  | 'H' :: 'P' :: _ => true
  | _ :: rest => hpSub rest
  | [] => false

/-- `'HP' in term` for a string token. -/
def containsHP (t : String) : Bool := hpSub t.data

/-- A Python `dict` from strings to strings, as an association list. -/
abbrev Dict := List (String × String)

/-- Dictionary lookup: first binding of the key wins (insert keeps keys unique). -/
def dlookup (d : Dict) (k : String) : Option String :=
  match d with
  | [] => none
  | (k', v) :: rest => if k = k' then some v else dlookup rest k

/-- Dictionary update `d[k] = v`: replace the existing binding in place, else append. -/
def dinsert (d : Dict) (k v : String) : Dict :=
  match d with
  | [] => [(k, v)]
  | (k', v') :: rest => if k' = k then (k, v) :: rest else (k', v') :: dinsert rest k v

/-- A node of the obo graph: canonical id, display name, and the optional
`synonyms` / `alt_id` attributes (`none` models the attribute being absent). -/
structure OboNode where
  id : String
  name : String
  synonyms : Option (List String)
  alt_id : Option (List String)
deriving DecidableEq, Repr

/-- A networkx directed graph as read by obonet / built by phenopy:
a node list (with data) and an edge list. -/
structure OboGraph where
  nodes : List OboNode
  edges : List (String × String)
deriving DecidableEq, Repr

/-- `list(g.nodes())`. -/
def OboGraph.nodeIds (g : OboGraph) : List String := g.nodes.map OboNode.id

/-- `DiGraph.reverse()`: same nodes, every edge flipped. -/
def OboGraph.rev (g : OboGraph) : OboGraph :=
  ⟨g.nodes, g.edges.map (fun e => (e.2, e.1))⟩

/-- One pass over the edge list, adding the source of every edge whose target
is already in the set (the elementary step of computing `nx.ancestors`). -/
def ancStep (edges : List (String × String)) (s : List String) : List String :=
  edges.foldl (fun acc e => if e.2 ∈ acc ∧ e.1 ∉ acc then acc ++ [e.1] else acc) s

/-- Iterate `ancStep` a given number of times. -/
def ancIter (edges : List (String × String)) : ℕ → List String → List String
  | 0, s => s
  | n + 1, s => ancIter edges n (ancStep edges s)

/-- `{t} ∪ nx.ancestors g t`: the closure of `{t}` under taking edge sources.
`g.nodes.length` rounds of `ancStep` reach the fixpoint for any path. -/
def ancPlus (g : OboGraph) (t : String) : List String :=
  ancIter g.edges g.nodes.length [t]

/-- `nx.ancestors g t`: all nodes with a directed path to `t`, excluding `t`. -/
def nxAncestors (g : OboGraph) (t : String) : List String :=
  (ancPlus g t).filter (fun x => x ≠ t)

/-- `parent_nodes = list(nx.ancestors(g, hpo)); parent_nodes.append(hpo)`. -/
def parentNodes (g : OboGraph) (t : String) : List String :=
  nxAncestors g t ++ [t]

/-- One pass over the edge list, adding the target of every edge whose source
is already in the set (the elementary step of computing `nx.descendants`). -/
def descStep (edges : List (String × String)) (s : List String) : List String :=
  edges.foldl (fun acc e => if e.1 ∈ acc ∧ e.2 ∉ acc then acc ++ [e.2] else acc) s

/-- Iterate `descStep` a given number of times. -/
def descIter (edges : List (String × String)) : ℕ → List String → List String
  | 0, s => s
  | n + 1, s => descIter edges n (descStep edges s)

/-- `{t} ∪ nx.descendants g t`. -/
def descPlus (g : OboGraph) (t : String) : List String :=
  descIter g.edges g.nodes.length [t]

/-- `nx.algorithms.dag.descendants g t`: all nodes reachable from `t`, excluding `t`. -/
def nxDescendants (g : OboGraph) (t : String) : List String :=
  (descPlus g t).filter (fun x => x ≠ t)

/-- `term if 'HP' in term else self.name_to_id_and_reverse[term]`:
`none` models the `KeyError` raised by a failed dict lookup. -/
def resolveToken (d : Dict) (t : String) : Option String :=
  if containsHP t then some t else dlookup d t

/-- The list comprehension of `calc_similarity`:
`[term if 'HP' in term else self.name_to_id_and_reverse[term]
  for term in terms if term in hpo_nodes]`.
Note the membership filter is applied to the raw token, before resolution. -/
def procList (nids : List String) (d : Dict) : List String → Option (List String)
  | [] => some []
  | t :: rest =>
    if t ∈ nids then
      match resolveToken d t, procList nids d rest with
      | some v, some vs => some (v :: vs)
      | _, _ => none
    else procList nids d rest

/-- The inner loop of the `max1` pass: running maximum (starting at `0`) of
`score(term_a, term_b)` over `term_b` in the processed b-list. -/
def bestMatchA (s : String → String → ℚ) (a : String) (lb : List String) : ℚ :=
  lb.foldl (fun m b => max m (s a b)) 0

/-- The inner loop of the `max0` pass: running maximum (starting at `0`) of
`score(term_a, term_b)` over `term_a` in the processed a-list. -/
def bestMatchB (s : String → String → ℚ) (la : List String) (b : String) : ℚ :=
  la.foldl (fun m a => max m (s a b)) 0

/-- `np.average` of a list, with the `return 0 if np.isnan(average) else average`
guard of `calc_similarity`: the average of an empty list is NaN, normalized to 0. -/
def npAverage (l : List ℚ) : ℚ :=
  if l.length = 0 then 0 else l.sum / l.length

/-- `SimScorer.calc_similarity`.  `s` is the external pairwise scorer
(`score_hpo_pair_hrss`), `g` is `self.hpo_network`, `d` is
`self.name_to_id_and_reverse`.  `none` models an escaping `KeyError`. -/
def calc_similarity (s : String → String → ℚ) (g : OboGraph) (d : Dict)
    (terms_a terms_b : List String) : Option ℚ :=
  match procList g.nodeIds d terms_a, procList g.nodeIds d terms_b with
  | some pa, some pb =>
      let max1 := pa.map (fun a => bestMatchA s a pb)
      let max0 := pb.map (fun b => bestMatchB s pa b)
      some (npAverage (max1 ++ max0))
  | _, _ => none

example : containsHP "HP:0000001" = true := by decide
example : containsHP "Growth abnormality" = false := by decide
example : calc_similarity (fun _ _ => 1)
    ⟨[⟨"HP:0000001", "A", none, none⟩], []⟩ [] ["HP:0000001"] ["HP:0000001"] = some 1 := by
  simp +decide [calc_similarity, procList, resolveToken, OboGraph.nodeIds, bestMatchA, bestMatchB,
    npAverage]

/-- The mutable state of a `SimScorer` instance: `self.hpo_network` and
`self.name_to_id_and_reverse` (the external `self.scorer` is passed separately
as the function `s`). -/
structure SimState where
  hpo_network : OboGraph
  name_to_id_and_reverse : Dict
deriving DecidableEq, Repr

/-- `name_to_id = {data.get('name'): id_ for id_, data in full_hpo_graph.nodes(data=True)}`. -/
def nameToId (full : OboGraph) : Dict :=
  full.nodes.foldl (fun d nd => dinsert d nd.name nd.id) []

/-- `{**name_to_id, **{v: k for k, v in name_to_id.items()}}`: the name→id dict
merged with its item-wise reversal. -/
def mergedNameId (full : OboGraph) : Dict :=
  (nameToId full).foldl (fun d p => dinsert d p.2 p.1) (nameToId full)

/-- The dict-building part of `_init_calc_similarity` (lines 127-137):
`name_to_id = {name: id}`, merged with its reversal `{id: name}`, then for each
node every synonym is mapped to the node id and every alternate id to the node
NAME. -/
def initAlias (full : OboGraph) : Dict :=
  full.nodes.foldl (fun d nd =>
    let d1 := match nd.synonyms with
      | some syns => syns.foldl (fun d2 syn => dinsert d2 syn nd.id) d
      | none => d
    match nd.alt_id with
      | some alts => alts.foldl (fun d2 a => dinsert d2 a nd.name) d1
      | none => d1) (mergedNameId full)

/-- `_init_calc_similarity`: the phenopy network (`hpo_network`, reversed before
being stored) and the full obonet graph (`full`) are external inputs; the
function builds the alias dict from the full graph and returns the state. -/
def init_calc_similarity (full hpo_network : OboGraph) : SimState :=
  ⟨hpo_network.rev, initAlias full⟩

/-- `parents_to_exclude` of `filter_hpo_df`. -/
def parents_to_exclude : List String :=
  ["HP:0000708", "HP:0000271", "HP:0011297", "HP:0031703", "HP:0012372"]

/-- The `exclude` list of `filter_hpo_df`: for each excluded root, all of its
`nx.descendants` followed by the root itself. -/
def excludeSet (g : OboGraph) : List String :=
  parents_to_exclude.foldl (fun acc hpo => acc ++ nxDescendants g hpo ++ [hpo]) []

/-- Lines 273-277 of `filter_hpo_df`: for every node of `self.hpo_network`
with an `alt_id` attribute, write `self.name_to_id_and_reverse[alt] = name`. -/
def writeAlts (g : OboGraph) (d : Dict) : Dict :=
  g.nodes.foldl (fun acc nd =>
    match nd.alt_id with
    | some alts => alts.foldl (fun acc2 a => dinsert acc2 a nd.name) acc
    | none => acc) d

/-- The polymorphic input of `filter_hpo_df`: a plain list of terms, a numpy
array whose last column holds one term list per row, or a dataframe / series
with an `hpo_all` column of term lists (only the term lists are modelled). -/
inductive HpoDf where
  | lst : List String → HpoDf
  | arr : List (List String) → HpoDf
  | tab : List (List String) → HpoDf
deriving DecidableEq, Repr

/-- `list(set(df) - set(exclude))` (membership-faithful: Python's set order is
arbitrary, modelled as dedup order). -/
def listSetDiff (l ex : List String) : List String :=
  l.dedup.filter (fun t => t ∉ ex)

/-- `SimScorer.filter_hpo_df`.  Besides filtering, the method writes the
alt-id entries of `self.hpo_network` into `self.name_to_id_and_reverse`
(lines 273-277), so it returns the updated state as well. -/
def filter_hpo_df (st : SimState) (df : HpoDf) : HpoDf × SimState :=
  let st2 : SimState := ⟨st.hpo_network, writeAlts st.hpo_network st.name_to_id_and_reverse⟩
  let ex := excludeSet st.hpo_network
  let out := match df with
    | .lst l => HpoDf.lst (listSetDiff l ex)
    | .arr rows => HpoDf.arr (rows.map (fun L => L.filter (fun t => t ∉ ex)))
    | .tab rows => HpoDf.tab (rows.map (fun L => L.filter (fun t => t ∉ ex)))
  (out, st2)

/-- The per-row term lists of an `HpoDf` value. -/
def hpoRows : HpoDf → List (List String)
  | .lst l => [l]
  | .arr rows => rows
  | .tab rows => rows

/-- `SimScorer.calc_full_sim_mat`, on the branch where the last column of `x`
is already list-valued (the `mlb` one-hot branch delegates to an external
sklearn inverse transform).  `x` is the list of per-individual term lists.
The method first calls `filter_hpo_df` (which updates the alias dict), then
fills every cell `(i, z)` with
`calc_similarity(list(set(hpos[i])), list(set(hpos[z])))`. -/
def calc_full_sim_mat (s : String → String → ℚ) (st : SimState)
    (x : List (List String)) : List (List (Option ℚ)) × SimState :=
  let fr := filter_hpo_df st (HpoDf.arr x)
  let hpos := hpoRows fr.1
  let st2 := fr.2
  (hpos.map (fun li => hpos.map (fun lz =>
      calc_similarity s st2.hpo_network st2.name_to_id_and_reverse li.dedup lz.dedup)), st2)

/-- The alternate-id fallback scan of `get_graph` (lines 66-71): if `hpo` is
not a node id, replace it by the id of the first node whose `alt_id` list
contains it (if any). -/
def resolveAlt (g : OboGraph) (hpo : String) : String :=
  if hpo ∈ g.nodeIds then hpo
  else
    match g.nodes.find? (fun nd => match nd.alt_id with
      | some alts => decide (hpo ∈ alts)
      | none => false) with
    | some nd => nd.id
    | none => hpo

/-- The `for hpo_ in parent_nodes: nodes[hpo_]['present_in_patient'] += 1`
loop: bump the counter of every listed node, once per occurrence. -/
def bumpList (c : String → ℕ) : List String → (String → ℕ)
  | [] => c
  | n :: rest => bumpList (fun x => if x = n then c x + 1 else c x) rest

/-- The `present_in_patient` counters of `get_graph` after the main loop:
initialized to 0 on the deep copy, incremented along `parent_nodes` for every
input term that resolves to a node (terms failing both lookups are skipped). -/
def graphCounts (g : OboGraph) (hpo_terms : List String) : String → ℕ :=
  hpo_terms.foldl (fun c t =>
    if resolveAlt g t ∈ g.nodeIds then bumpList c (parentNodes g (resolveAlt g t)) else c)
    (fun _ => 0)

/-- The `id_to_name` dict of `get_graph` (lines 85-89): kept node ids to names,
extended with alt-id keys. -/
def idToName (kept : List OboNode) : Dict :=
  writeAlts ⟨kept, []⟩ (kept.foldl (fun d nd => dinsert d nd.id nd.name) [])

/-- `SimScorer.get_graph`: works on a deep copy of `self.hpo_network`, counts
`present_in_patient` per node, removes nodes whose counter stayed 0 (with their
incident edges), and relabels ids to names when `hpo_id_as_label` is false.
Returns the surviving graph together with the counter attribute (keyed by the
surviving graph's node labels). -/
def get_graph (g : OboGraph) (hpo_terms : List String) (hpo_id_as_label : Bool) :
    OboGraph × (String → ℕ) :=
  let counts := graphCounts g hpo_terms
  let kept := g.nodes.filter (fun nd => decide (counts nd.id ≠ 0))
  let keptIds := kept.map OboNode.id
  let keptEdges := g.edges.filter (fun e => decide (e.1 ∈ keptIds ∧ e.2 ∈ keptIds))
  if hpo_id_as_label then (⟨kept, keptEdges⟩, counts)
  else
    let ren := fun n => (dlookup (idToName kept) n).getD n
    (⟨kept.map (fun nd => { nd with id := ren nd.id }),
      keptEdges.map (fun e => (ren e.1, ren e.2))⟩,
     fun n => ((kept.find? (fun nd => ren nd.id == n)).map (fun nd => counts nd.id)).getD 0)

/-- `np.mean` of a list of rationals (the mean of an empty selection is NaN in
numpy; here `0/0 = 0`, and the theorems put nonemptiness in their hypotheses). -/
def qmean (l : List ℚ) : ℚ := l.sum / l.length

/-- `sim_mat[i, j]` with the matrix as a list of rows. -/
def matGet (m : List (List ℚ)) (i j : ℕ) : ℚ := (m.getD i []).getD j 0

/-- The row of `sim_mat[:, train_index]` at absolute index `i`. -/
def trainCols (m : List (List ℚ)) (train_index : List ℕ) (i : ℕ) : List ℚ :=
  train_index.map (fun j => matGet m i j)

/-- Boolean-mask selection `row[y_train == lab]` over the columns of a
training-sliced row (`y_train` is aligned with `train_index`). -/
def maskSel (row : List ℚ) (y_train : List ℕ) (lab : ℕ) : List ℚ :=
  ((row.zip y_train).filter (fun p => p.2 == lab)).map Prod.fst

/-- The test index argument of `calc_sim_scores`: an index array (2-D slice) or
a single scalar index, whose slice `sim_mat[:, train_index][test_index, :]` is
1-D — the degenerate branch of lines 247-249. -/
inductive TestIdx where
  | many : List ℕ → TestIdx
  | one : ℕ → TestIdx
deriving DecidableEq, Repr

/-- `SimScorer.calc_sim_scores`: slice the matrix to train×train and
test×train, then per row stack the mean over positively-labelled columns and
the mean over negatively-labelled columns. -/
def calc_sim_scores (sim_mat : List (List ℚ)) (train_index : List ℕ)
    (test_index : TestIdx) (y_train : List ℕ) :
    List (List ℚ) × List (List ℚ) :=
  let row2 := fun (row : List ℚ) => [qmean (maskSel row y_train 1), qmean (maskSel row y_train 0)]
  let sim_mat_train := train_index.map (trainCols sim_mat train_index)
  let trainTab := sim_mat_train.map row2
  match test_index with
  | .many idxs => (trainTab, (idxs.map (trainCols sim_mat train_index)).map row2)
  | .one i => (trainTab, [row2 (trainCols sim_mat train_index i)])

/-! ### Helper lemmas -/

lemma foldl_max_ext (f g : String → ℚ) (l : List String) (h : ∀ x ∈ l, f x = g x) :
    ∀ init : ℚ, l.foldl (fun m x => max m (f x)) init = l.foldl (fun m x => max m (g x)) init := by
  induction l with
  | nil => intro init; rfl
  | cons hd tl ih =>
      intro init
      simp only [List.foldl_cons, h hd (List.mem_cons_self hd tl)]
      exact ih (fun x hx => h x (List.mem_cons_of_mem hd hx)) _

lemma bestMatch_symm (s : String → String → ℚ) (hs : ∀ a b, s a b = s b a)
    (b : String) (la : List String) : bestMatchA s b la = bestMatchB s la b := by
  unfold bestMatchA bestMatchB
  exact foldl_max_ext (fun x => s b x) (fun x => s x b) la (fun x _ => hs b x) 0

lemma npAverage_append_comm (l1 l2 : List ℚ) :
    npAverage (l1 ++ l2) = npAverage (l2 ++ l1) := by
  simp only [npAverage, List.sum_append, List.length_append]
  rw [add_comm l1.sum, Nat.add_comm l1.length]

lemma calc_similarity_comm (s : String → String → ℚ) (g : OboGraph) (d : Dict)
    (hs : ∀ a b, s a b = s b a) (ta tb : List String) :
    calc_similarity s g d ta tb = calc_similarity s g d tb ta := by
  unfold calc_similarity
  cases ha : procList g.nodeIds d ta with
  | none => cases hb : procList g.nodeIds d tb <;> rfl
  | some pa =>
      cases hb : procList g.nodeIds d tb with
      | none => rfl
      | some pb =>
          simp only []
          have h1 : pb.map (fun a => bestMatchA s a pa) = pb.map (fun b => bestMatchB s pa b) :=
            List.map_congr_left (fun x _ => bestMatch_symm s hs x pa)
          have h2 : pa.map (fun b => bestMatchB s pb b) = pa.map (fun a => bestMatchA s a pb) :=
            List.map_congr_left (fun x _ => (bestMatch_symm s hs x pb).symm)
          rw [h1, h2, npAverage_append_comm]

/-- Concrete two-node ontology used by witnesses and counterexamples:
a root `HP:0000001` with one child `HP:0000002` (edges of the stored,
already-reversed network point from ancestor to descendant). -/
def gC : OboGraph :=
  ⟨[⟨"HP:0000001", "Root", none, none⟩, ⟨"HP:0000002", "Child", none, none⟩],
   [("HP:0000001", "HP:0000002")]⟩

/-- A deliberately asymmetric pairwise scorer. -/
def asymS : String → String → ℚ := fun a _ => if a = "HP:0000001" then 1 else 0

/-- C1 (amended): for a pairwise scorer that is itself symmetric (as the
deployed Resnik/HRSS scorer is), `calc_similarity(A, B) = calc_similarity(B, A)`
for all term-set lists `A`, `B`. -/
theorem calc_similarity_symm_of_scorer_symm (s : String → String → ℚ) (g : OboGraph)
    (d : Dict) (hs : ∀ a b, s a b = s b a) (ta tb : List String) :
    calc_similarity s g d ta tb = calc_similarity s g d tb ta :=
  calc_similarity_comm s g d hs ta tb

/-- Witness for C1's amended theorem at the constant scorer and concrete lists. -/
theorem calc_similarity_symm_of_scorer_symm_witness :
    (∀ a b : String, (fun (_ _ : String) => (1 : ℚ)) a b = (fun (_ _ : String) => (1 : ℚ)) b a) ∧
    calc_similarity (fun _ _ => 1) gC [] ["HP:0000001"] ["HP:0000002"] =
      calc_similarity (fun _ _ => 1) gC [] ["HP:0000002"] ["HP:0000001"] :=
  ⟨fun _ _ => rfl,
   calc_similarity_symm_of_scorer_symm (fun _ _ => 1) gC [] (fun _ _ => rfl) _ _⟩

/-- C1 counterexample: with an asymmetric external scorer the two halves of the
best-match average both call `score(a, b)` with the first list's element first,
so `calc_similarity` is NOT symmetric for an arbitrary scorer — the symmetry is
a consequence of the scorer being symmetric, not of the construction. -/
theorem calc_similarity_not_symm_for_asym_scorer :
    calc_similarity asymS gC [] ["HP:0000001"] ["HP:0000002"] ≠
      calc_similarity asymS gC [] ["HP:0000002"] ["HP:0000001"] := by
  simp +decide [calc_similarity, procList, resolveToken, OboGraph.nodeIds, bestMatchA,
    bestMatchB, npAverage, asymS, gC]

/-- C3: whenever one (or both) of the two processed term lists is empty —
in particular whenever every input token is absent from the loaded ontology's
node set — `calc_similarity` returns exactly 0 and raises no exception. -/
theorem calc_similarity_empty_proc_zero (s : String → String → ℚ) (g : OboGraph)
    (d : Dict) (ta tb : List String) (pa pb : List String)
    (ha : procList g.nodeIds d ta = some pa) (hb : procList g.nodeIds d tb = some pb)
    (h : pa = [] ∨ pb = []) : calc_similarity s g d ta tb = some 0 := by
  unfold calc_similarity
  rw [ha, hb]
  rcases h with h | h <;> subst h
  · simp only [List.map_nil, List.nil_append, Option.some.injEq]
    have hz : pb.map (fun b => bestMatchB s [] b) = pb.map (fun _ => (0 : ℚ)) :=
      List.map_congr_left (fun x _ => rfl)
    rw [hz]
    cases pb with
    | nil => rfl
    | cons hd tl => simp [npAverage, List.map_const', List.sum_replicate]
  · simp only [List.map_nil, List.append_nil, Option.some.injEq]
    have hz : pa.map (fun a => bestMatchA s a []) = pa.map (fun _ => (0 : ℚ)) :=
      List.map_congr_left (fun x _ => rfl)
    rw [hz]
    cases pa with
    | nil => rfl
    | cons hd tl => simp [npAverage, List.map_const', List.sum_replicate]

/-- Witness for C3 at input lists whose tokens are all absent from the node set. -/
theorem calc_similarity_empty_proc_zero_witness :
    procList gC.nodeIds [] ["ZZ:0000001"] = some [] ∧
    procList gC.nodeIds [] ["no such term"] = some [] ∧
    calc_similarity (fun _ _ => 1) gC [] ["ZZ:0000001"] ["no such term"] = some 0 :=
  ⟨by decide, by decide,
   calc_similarity_empty_proc_zero (fun _ _ => 1) gC [] _ _ [] []
     (by decide) (by decide) (Or.inl rfl)⟩

/-- Closed form of `procList`: it succeeds iff every token kept by the raw
membership filter resolves, and then returns the filtered tokens mapped
through `resolveToken`. -/
lemma procList_eq (nids : List String) (d : Dict) (l : List String) :
    procList nids d l =
      if ∀ t ∈ l, t ∈ nids → (resolveToken d t).isSome
      then some ((l.filter (fun t => t ∈ nids)).map (fun t => (resolveToken d t).getD t))
      else none := by
  induction l with
  | nil => simp [procList]
  | cons t rest ih =>
      simp only [procList]
      by_cases ht : t ∈ nids
      · rw [if_pos ht, ih]
        by_cases hr : (resolveToken d t).isSome
        · obtain ⟨v, hv⟩ := Option.isSome_iff_exists.mp hr
          by_cases hall : ∀ x ∈ rest, x ∈ nids → (resolveToken d x).isSome
          · have hcons : ∀ x ∈ t :: rest, x ∈ nids → (resolveToken d x).isSome := by
              intro x hx
              rcases List.mem_cons.mp hx with h | h
              · subst h; intro _; exact hr
              · exact hall x h
            rw [if_pos hall, if_pos hcons, hv]
            simp [List.filter_cons, ht, hv]
          · have hcons : ¬∀ x ∈ t :: rest, x ∈ nids → (resolveToken d x).isSome := by
              intro hc
              exact hall fun x hx => hc x (List.mem_cons_of_mem t hx)
            rw [if_neg hall, if_neg hcons, hv]
        · have hv : resolveToken d t = none := Option.not_isSome_iff_eq_none.mp hr
          have hcons : ¬∀ x ∈ t :: rest, x ∈ nids → (resolveToken d x).isSome := by
            intro hc
            exact hr (hc t (List.mem_cons_self t rest) ht)
          rw [if_neg hcons, hv]
      · rw [if_neg ht, ih]
        have hiff : (∀ x ∈ t :: rest, x ∈ nids → (resolveToken d x).isSome) ↔
            (∀ x ∈ rest, x ∈ nids → (resolveToken d x).isSome) := by
          constructor
          · intro hc x hx
            exact hc x (List.mem_cons_of_mem t hx)
          · intro hc x hx hxn
            rcases List.mem_cons.mp hx with h | h
            · subst h; exact absurd hxn ht
            · exact hc x h hxn
        rw [if_congr hiff rfl rfl]
        by_cases hall : ∀ x ∈ rest, x ∈ nids → (resolveToken d x).isSome
        · rw [if_pos hall, if_pos hall]
          simp [List.filter_cons, ht]
        · rw [if_neg hall, if_neg hall]

/-- A best-match maximum only depends on the multiset of candidates. -/
lemma bestMatchA_perm (s : String → String → ℚ) (a : String) {lb lb' : List String}
    (h : lb.Perm lb') : bestMatchA s a lb = bestMatchA s a lb' := by
  unfold bestMatchA
  exact h.foldl_eq' (fun x _ y _ z => by rw [max_assoc, max_comm (s a x) (s a y), ← max_assoc]) 0

lemma bestMatchB_perm (s : String → String → ℚ) (b : String) {la la' : List String}
    (h : la.Perm la') : bestMatchB s la b = bestMatchB s la' b := by
  unfold bestMatchB
  exact h.foldl_eq' (fun x _ y _ z => by rw [max_assoc, max_comm (s x b) (s y b), ← max_assoc]) 0

lemma npAverage_perm {l l' : List ℚ} (h : l.Perm l') : npAverage l = npAverage l' := by
  simp only [npAverage, h.sum_eq, h.length_eq]

/-- `calc_similarity` only depends on the order-insensitive content of its
two input lists (duplicates, by contrast, do matter). -/
lemma calc_similarity_perm_aux (s : String → String → ℚ) (g : OboGraph) (d : Dict)
    {ta ta' tb tb' : List String} (hA : ta.Perm ta') (hB : tb.Perm tb') :
    calc_similarity s g d ta tb = calc_similarity s g d ta' tb' := by
  unfold calc_similarity
  rw [procList_eq g.nodeIds d ta, procList_eq g.nodeIds d ta', procList_eq g.nodeIds d tb,
    procList_eq g.nodeIds d tb']
  have hAc : (∀ t ∈ ta, t ∈ g.nodeIds → (resolveToken d t).isSome) ↔
      (∀ t ∈ ta', t ∈ g.nodeIds → (resolveToken d t).isSome) :=
    ⟨fun hc x hx => hc x (hA.mem_iff.mpr hx), fun hc x hx => hc x (hA.mem_iff.mp hx)⟩
  have hBc : (∀ t ∈ tb, t ∈ g.nodeIds → (resolveToken d t).isSome) ↔
      (∀ t ∈ tb', t ∈ g.nodeIds → (resolveToken d t).isSome) :=
    ⟨fun hc x hx => hc x (hB.mem_iff.mpr hx), fun hc x hx => hc x (hB.mem_iff.mp hx)⟩
  by_cases hca : ∀ t ∈ ta, t ∈ g.nodeIds → (resolveToken d t).isSome
  · by_cases hcb : ∀ t ∈ tb, t ∈ g.nodeIds → (resolveToken d t).isSome
    · rw [if_pos hca, if_pos hcb, if_pos (hAc.mp hca), if_pos (hBc.mp hcb)]
      simp only [Option.some.injEq]
      have hpA : ((ta.filter (fun t => t ∈ g.nodeIds)).map
            (fun t => (resolveToken d t).getD t)).Perm
          ((ta'.filter (fun t => t ∈ g.nodeIds)).map (fun t => (resolveToken d t).getD t)) :=
        (hA.filter _).map _
      have hpB : ((tb.filter (fun t => t ∈ g.nodeIds)).map
            (fun t => (resolveToken d t).getD t)).Perm
          ((tb'.filter (fun t => t ∈ g.nodeIds)).map (fun t => (resolveToken d t).getD t)) :=
        (hB.filter _).map _
      apply npAverage_perm
      apply List.Perm.append
      · have h1 : ((ta'.filter (fun t => t ∈ g.nodeIds)).map
              (fun t => (resolveToken d t).getD t)).map
            (fun a => bestMatchA s a ((tb'.filter (fun t => t ∈ g.nodeIds)).map
              (fun t => (resolveToken d t).getD t))) =
            ((ta'.filter (fun t => t ∈ g.nodeIds)).map (fun t => (resolveToken d t).getD t)).map
            (fun a => bestMatchA s a ((tb.filter (fun t => t ∈ g.nodeIds)).map
              (fun t => (resolveToken d t).getD t))) :=
          List.map_congr_left (fun x _ => (bestMatchA_perm s x hpB).symm)
        rw [h1]
        exact hpA.map _
      · have h2 : ((tb'.filter (fun t => t ∈ g.nodeIds)).map
              (fun t => (resolveToken d t).getD t)).map
            (fun b => bestMatchB s ((ta'.filter (fun t => t ∈ g.nodeIds)).map
              (fun t => (resolveToken d t).getD t)) b) =
            ((tb'.filter (fun t => t ∈ g.nodeIds)).map (fun t => (resolveToken d t).getD t)).map
            (fun b => bestMatchB s ((ta.filter (fun t => t ∈ g.nodeIds)).map
              (fun t => (resolveToken d t).getD t)) b) :=
          List.map_congr_left (fun x _ => (bestMatchB_perm s x hpA).symm)
        rw [h2]
        exact hpB.map _
    · rw [if_neg hcb, if_neg (fun h => hcb (hBc.mpr h))]
      cases ite (∀ t ∈ ta, t ∈ g.nodeIds → (resolveToken d t).isSome)
          (some ((ta.filter (fun t => t ∈ g.nodeIds)).map (fun t => (resolveToken d t).getD t)))
          none <;>
        cases ite (∀ t ∈ ta', t ∈ g.nodeIds → (resolveToken d t).isSome)
          (some ((ta'.filter (fun t => t ∈ g.nodeIds)).map (fun t => (resolveToken d t).getD t)))
          none <;> rfl
  · rw [if_neg hca, if_neg (fun h => hca (hAc.mpr h))]

/-- C8 (amended): `calc_similarity` is invariant under reordering the elements
of either input list.  (It is not invariant under adding duplicate entries, and
`calc_similarity(A, A)` can differ from
`calc_similarity(dedup(A), dedup(A))` — see the counterexample.) -/
theorem calc_similarity_perm_invariant (s : String → String → ℚ) (g : OboGraph)
    (d : Dict) {ta ta' tb tb' : List String} (hA : ta.Perm ta') (hB : tb.Perm tb') :
    calc_similarity s g d ta tb = calc_similarity s g d ta' tb' :=
  calc_similarity_perm_aux s g d hA hB

/-- Witness for C8's amended theorem at concrete permuted lists. -/
theorem calc_similarity_perm_invariant_witness :
    (["HP:0000001", "HP:0000002"].Perm ["HP:0000002", "HP:0000001"]) ∧
    calc_similarity (fun _ _ => 1) gC [] ["HP:0000001", "HP:0000002"] ["HP:0000001"] =
      calc_similarity (fun _ _ => 1) gC [] ["HP:0000002", "HP:0000001"] ["HP:0000001"] :=
  ⟨by decide,
   calc_similarity_perm_invariant (fun _ _ => 1) gC [] (by decide) (List.Perm.refl _)⟩

/-- A symmetric pairwise scorer whose self-scores differ between terms
(as Resnik information-content scores do). -/
def dupS : String → String → ℚ :=
  fun a b => if a = b then (if a = "HP:0000001" then 1 else 4) else 0

/-- C8 counterexample: with duplicates in `A`, `calc_similarity(A, A)` differs
from `calc_similarity(dedup(A), dedup(A))` — the best-match average weights
each occurrence, so the claimed dedup invariance fails. -/
theorem calc_similarity_dedup_not_invariant :
    calc_similarity dupS gC [] ["HP:0000001", "HP:0000001", "HP:0000002"]
        ["HP:0000001", "HP:0000001", "HP:0000002"] ≠
      calc_similarity dupS gC [] (["HP:0000001", "HP:0000001", "HP:0000002"].dedup)
        (["HP:0000001", "HP:0000001", "HP:0000002"].dedup) := by
  have hd : (["HP:0000001", "HP:0000001", "HP:0000002"] : List String).dedup =
      ["HP:0000001", "HP:0000002"] := by decide
  rw [hd]
  simp +decide [calc_similarity, procList, resolveToken, OboGraph.nodeIds, bestMatchA,
    bestMatchB, npAverage, dupS, gC]
  norm_num

lemma getD_map_lt {α β : Type} (f : α → β) (l : List α) (i : ℕ) (hi : i < l.length)
    (d : β) (a : α) : (l.map f).getD i d = f (l.getD i a) := by
  rw [List.getD_eq_getElem?_getD, List.getElem?_map, List.getElem?_eq_getElem hi,
    List.getD_eq_getElem?_getD, List.getElem?_eq_getElem hi]
  rfl

/-- C2: `calc_full_sim_mat` on a cohort of `N` individuals returns an `N×N`
matrix whose entry `(i, z)` — the diagonal included, with no shortcut — equals
`calc_similarity` applied to the deduplicated, exclusion-filtered term lists of
individuals `i` and `z`, and (the external pairwise scorer being symmetric, as
Resnik/HRSS is) the matrix satisfies `M[i][z] = M[z][i]`. -/
theorem calc_full_sim_mat_entries (s : String → String → ℚ) (st : SimState)
    (x : List (List String)) (hs : ∀ a b, s a b = s b a) :
    (calc_full_sim_mat s st x).1.length = x.length ∧
    (∀ row ∈ (calc_full_sim_mat s st x).1, row.length = x.length) ∧
    (∀ i z, i < x.length → z < x.length →
      (((calc_full_sim_mat s st x).1.getD i []).getD z none =
        calc_similarity s st.hpo_network
          (writeAlts st.hpo_network st.name_to_id_and_reverse)
          ((x.getD i []).filter (fun t => t ∉ excludeSet st.hpo_network)).dedup
          ((x.getD z []).filter (fun t => t ∉ excludeSet st.hpo_network)).dedup ∧
      ((calc_full_sim_mat s st x).1.getD i []).getD z none =
        ((calc_full_sim_mat s st x).1.getD z []).getD i none)) := by
  have hrows : (calc_full_sim_mat s st x).1 =
      (x.map (fun L => L.filter (fun t => t ∉ excludeSet st.hpo_network))).map
        (fun li => (x.map (fun L => L.filter (fun t => t ∉ excludeSet st.hpo_network))).map
          (fun lz => calc_similarity s st.hpo_network
            (writeAlts st.hpo_network st.name_to_id_and_reverse) li.dedup lz.dedup)) := rfl
  refine ⟨?_, ?_, ?_⟩
  · rw [hrows]; simp
  · rw [hrows]
    intro row hrow
    obtain ⟨li, _, hli⟩ := List.mem_map.mp hrow
    rw [← hli]; simp
  · intro i z hi hz
    have hent : ∀ i z, i < x.length → z < x.length →
        (((calc_full_sim_mat s st x).1.getD i []).getD z none =
          calc_similarity s st.hpo_network
            (writeAlts st.hpo_network st.name_to_id_and_reverse)
            ((x.getD i []).filter (fun t => t ∉ excludeSet st.hpo_network)).dedup
            ((x.getD z []).filter (fun t => t ∉ excludeSet st.hpo_network)).dedup) := by
      intro i z hi hz
      rw [hrows]
      have hi' : i < (x.map (fun L => L.filter (fun t => t ∉ excludeSet st.hpo_network))).length := by
        simpa using hi
      have hz' : z < (x.map (fun L => L.filter (fun t => t ∉ excludeSet st.hpo_network))).length := by
        simpa using hz
      rw [getD_map_lt _ _ i hi' [] []]
      rw [getD_map_lt _ _ z hz' none []]
      rw [getD_map_lt _ _ i hi [] []]
      rw [getD_map_lt _ _ z hz [] []]
    refine ⟨hent i z hi hz, ?_⟩
    rw [hent i z hi hz, hent z i hz hi]
    exact calc_similarity_comm s _ _ hs _ _

/-- Witness for C2 at a concrete two-individual cohort and the constant scorer. -/
theorem calc_full_sim_mat_entries_witness :
    (∀ a b : String, (fun (_ _ : String) => (1 : ℚ)) a b = (fun (_ _ : String) => (1 : ℚ)) b a) ∧
    (calc_full_sim_mat (fun _ _ => 1) ⟨gC, []⟩
      [["HP:0000001"], ["HP:0000002"]]).1.length = 2 :=
  ⟨fun _ _ => rfl,
   (calc_full_sim_mat_entries (fun _ _ => 1) ⟨gC, []⟩
      [["HP:0000001"], ["HP:0000002"]] (fun _ _ => rfl)).1⟩

/-- A one-node ontology whose node is commonly referred to by its display name. -/
def g4 : OboGraph := ⟨[⟨"HP:0000001", "Growth abnormality", none, none⟩], []⟩

/-- The alias dict built by `_init_calc_similarity` for `g4`. -/
def d4 : Dict := initAlias g4

/-- C4 (code bug evaluation): in `calc_similarity` the comprehension filters on
the RAW token (`for term in terms_a if term in hpo_nodes`) before the
resolution expression runs, so a display name that the alias dict resolves to a
node id is dropped anyway: the processed list is empty and the similarity is 0.
The resolution branch `term if 'HP' in term else name_to_id_and_reverse[term]`
is unreachable (every node id contains `'HP'`), evidencing the slip. -/
theorem calc_similarity_drops_resolvable_names :
    dlookup d4 "Growth abnormality" = some "HP:0000001" ∧
    "HP:0000001" ∈ g4.nodeIds ∧
    procList g4.nodeIds d4 ["Growth abnormality"] = some [] ∧
    calc_similarity (fun _ _ => 1) g4 d4 ["Growth abnormality"] ["HP:0000001"] = some 0 := by
  refine ⟨by decide, by decide, by decide, ?_⟩
  simp +decide [calc_similarity, procList, resolveToken, OboGraph.nodeIds, bestMatchB,
    npAverage, g4, d4, initAlias, dinsert, dlookup]

lemma mem_fold_exclude (g : OboGraph) (ps : List String) (acc : List String) (t : String) :
    t ∈ ps.foldl (fun acc2 hpo => acc2 ++ nxDescendants g hpo ++ [hpo]) acc ↔
      t ∈ acc ∨ ∃ r ∈ ps, t ∈ nxDescendants g r ∨ t = r := by
  induction ps generalizing acc with
  | nil => simp
  | cons p rest ih =>
      rw [List.foldl_cons, ih]
      simp only [List.mem_append, List.mem_cons, List.not_mem_nil, or_false]
      constructor
      · rintro (((h | h) | h) | ⟨r, hr, h⟩)
        · exact Or.inl h
        · exact Or.inr ⟨p, Or.inl rfl, Or.inl h⟩
        · exact Or.inr ⟨p, Or.inl rfl, Or.inr h⟩
        · exact Or.inr ⟨r, Or.inr hr, h⟩
      · rintro (h | ⟨r, hr | hr, h⟩)
        · exact Or.inl (Or.inl (Or.inl h))
        · subst hr
          rcases h with h | h
          · exact Or.inl (Or.inl (Or.inr h))
          · exact Or.inl (Or.inr h)
        · exact Or.inr ⟨r, hr, h⟩

lemma mem_excludeSet (g : OboGraph) (t : String) :
    t ∈ excludeSet g ↔ ∃ r ∈ parents_to_exclude, t ∈ nxDescendants g r ∨ t = r := by
  unfold excludeSet
  rw [mem_fold_exclude]
  simp

lemma getD_map_filterRows (rows : List (List String)) (p : String → Bool) (i : ℕ) :
    (rows.map (fun L => L.filter p)).getD i [] = (rows.getD i []).filter p := by
  by_cases hi : i < rows.length
  · exact getD_map_lt _ _ i hi [] []
  · push_neg at hi
    rw [List.getD_eq_default, List.getD_eq_default]
    · rfl
    · exact hi
    · simpa using hi

/-- C6: `filter_hpo_df` never returns a term equal to a configured excluded
root or a descendant of one, and every other term is kept: for each row, the
output contains a term iff the input row contains it and it is outside every
excluded subtree (for the plain-list shape, Python's set difference makes this
membership-level; the array/dataframe shapes filter each row in place). -/
theorem filter_hpo_df_excludes (st : SimState) (df : HpoDf) :
    (hpoRows (filter_hpo_df st df).1).length = (hpoRows df).length ∧
    ∀ i t, t ∈ (hpoRows (filter_hpo_df st df).1).getD i [] ↔
      (t ∈ (hpoRows df).getD i [] ∧
        ¬∃ r ∈ parents_to_exclude, t ∈ nxDescendants st.hpo_network r ∨ t = r) := by
  cases df with
  | lst l =>
      refine ⟨rfl, ?_⟩
      intro i t
      simp only [filter_hpo_df, hpoRows]
      match i with
      | 0 =>
          rw [List.getD_cons_zero, List.getD_cons_zero, listSetDiff]
          rw [List.mem_filter, List.mem_dedup]
          simp [mem_excludeSet]
      | Nat.succ j =>
          rw [List.getD_cons_succ, List.getD_cons_succ]
          simp
  | arr rows =>
      refine ⟨by simp [filter_hpo_df, hpoRows], ?_⟩
      intro i t
      simp only [filter_hpo_df, hpoRows]
      rw [getD_map_filterRows]
      rw [List.mem_filter]
      simp [mem_excludeSet]
  | tab rows =>
      refine ⟨by simp [filter_hpo_df, hpoRows], ?_⟩
      intro i t
      simp only [filter_hpo_df, hpoRows]
      rw [getD_map_filterRows]
      rw [List.mem_filter]
      simp [mem_excludeSet]

lemma maskSel_trainCols (m : List (List ℚ)) (tr : List ℕ) (y : List ℕ) (i lab : ℕ) :
    maskSel (trainCols m tr i) y lab =
      ((tr.zip y).filter (fun p => p.2 == lab)).map (fun p => matGet m i p.1) := by
  unfold maskSel trainCols
  rw [List.zip_map_left, List.filter_map, List.map_map]
  have hp : ((fun (p : ℚ × ℕ) => p.2 == lab) ∘ Prod.map (fun j => matGet m i j) id) =
      (fun (p : ℕ × ℕ) => p.2 == lab) := rfl
  rw [hp]
  rfl

/-- C7: for a training index set of size `T` and test index set of size `K`,
`calc_sim_scores` returns a `T×2` and a `K×2` table in which, per individual in
input index order, column 0 is the mean similarity to the training individuals
labelled 1 and column 1 the mean to those labelled 0; a 1-D test slice (single
scalar test index) is treated as a single-row block instead of failing. -/
theorem calc_sim_scores_spec (m : List (List ℚ)) (tr te : List ℕ) (ti : ℕ) (y : List ℕ)
    (hy : y.length = tr.length) (hp : 1 ∈ y) (hn : 0 ∈ y) :
    ((calc_sim_scores m tr (.many te) y).1.length = tr.length ∧
     (calc_sim_scores m tr (.many te) y).2.length = te.length) ∧
    (∀ r, r < tr.length →
      (calc_sim_scores m tr (.many te) y).1.getD r [] =
        [qmean (((tr.zip y).filter (fun p => p.2 == 1)).map
            (fun p => matGet m (tr.getD r 0) p.1)),
         qmean (((tr.zip y).filter (fun p => p.2 == 0)).map
            (fun p => matGet m (tr.getD r 0) p.1))]) ∧
    (∀ r, r < te.length →
      (calc_sim_scores m tr (.many te) y).2.getD r [] =
        [qmean (((tr.zip y).filter (fun p => p.2 == 1)).map
            (fun p => matGet m (te.getD r 0) p.1)),
         qmean (((tr.zip y).filter (fun p => p.2 == 0)).map
            (fun p => matGet m (te.getD r 0) p.1))]) ∧
    calc_sim_scores m tr (.one ti) y = calc_sim_scores m tr (.many [ti]) y := by
  refine ⟨⟨by simp [calc_sim_scores], by simp [calc_sim_scores]⟩, ?_, ?_, rfl⟩
  · intro r hr
    show ((tr.map (trainCols m tr)).map (fun row =>
        [qmean (maskSel row y 1), qmean (maskSel row y 0)])).getD r [] = _
    have hr1 : r < (tr.map (trainCols m tr)).length := by simpa using hr
    rw [getD_map_lt _ _ r hr1 [] []]
    rw [getD_map_lt _ _ r hr [] 0]
    rw [maskSel_trainCols, maskSel_trainCols]
  · intro r hr
    show ((te.map (trainCols m tr)).map (fun row =>
        [qmean (maskSel row y 1), qmean (maskSel row y 0)])).getD r [] = _
    have hr1 : r < (te.map (trainCols m tr)).length := by simpa using hr
    rw [getD_map_lt _ _ r hr1 [] []]
    rw [getD_map_lt _ _ r hr [] 0]
    rw [maskSel_trainCols, maskSel_trainCols]

/-- Witness for C7 at a concrete 2×2 matrix, training split `[0, 1]` with
labels `[1, 0]`, and a single test row. -/
theorem calc_sim_scores_spec_witness :
    ([1, 0].length = [0, 1].length ∧ 1 ∈ [1, 0] ∧ 0 ∈ [1, 0]) ∧
    calc_sim_scores [[1, 2], [3, 4]] [0, 1] (.one 1) [1, 0] =
      calc_sim_scores [[1, 2], [3, 4]] [0, 1] (.many [1]) [1, 0] :=
  ⟨⟨rfl, by decide, by decide⟩,
   (calc_sim_scores_spec [[1, 2], [3, 4]] [0, 1] [1] 1 [1, 0] rfl (by decide)
      (by decide)).2.2.2⟩

lemma bumpList_apply (c : String → ℕ) (ns : List String) (x : String) :
    bumpList c ns x = c x + ns.count x := by
  induction ns generalizing c with
  | nil => simp [bumpList]
  | cons n rest ih =>
      rw [bumpList, ih, List.count_cons]
      by_cases hx : x = n
      · subst hx; simp; omega
      · have hbeq : (n == x) = false := by
          simp [Ne.symm hx]
        simp [hx, hbeq]

lemma ancStep_nodup (edges : List (String × String)) :
    ∀ s : List String, s.Nodup → (ancStep edges s).Nodup := by
  induction edges with
  | nil => intro s hs; exact hs
  | cons e rest ih =>
      intro s hs
      rw [ancStep, List.foldl_cons]
      apply ih
      by_cases hc : e.2 ∈ s ∧ e.1 ∉ s
      · rw [if_pos hc]
        simp [List.nodup_append, hs, hc.2]
      · rw [if_neg hc]
        exact hs

lemma ancStep_mem (edges : List (String × String)) :
    ∀ s : List String, ∀ x ∈ s, x ∈ ancStep edges s := by
  induction edges with
  | nil => intro s x hx; exact hx
  | cons e rest ih =>
      intro s x hx
      rw [ancStep, List.foldl_cons]
      apply ih
      by_cases hc : e.2 ∈ s ∧ e.1 ∉ s
      · rw [if_pos hc]; exact List.mem_append_left _ hx
      · rw [if_neg hc]; exact hx

lemma ancStep_subset (edges : List (String × String)) (nids : List String)
    (hE : ∀ e ∈ edges, e.1 ∈ nids) :
    ∀ s : List String, (∀ x ∈ s, x ∈ nids) → ∀ x ∈ ancStep edges s, x ∈ nids := by
  induction edges with
  | nil => intro s hs; exact hs
  | cons e rest ih =>
      intro s hs
      rw [ancStep, List.foldl_cons]
      apply ih (fun e2 he2 => hE e2 (List.mem_cons_of_mem e he2))
      by_cases hc : e.2 ∈ s ∧ e.1 ∉ s
      · rw [if_pos hc]
        intro x hx
        rcases List.mem_append.mp hx with h | h
        · exact hs x h
        · rw [List.mem_singleton.mp h]
          exact hE e (List.mem_cons_self e rest)
      · rw [if_neg hc]; exact hs

lemma ancIter_nodup (edges : List (String × String)) (n : ℕ) :
    ∀ s : List String, s.Nodup → (ancIter edges n s).Nodup := by
  induction n with
  | zero => intro s hs; exact hs
  | succ k ih => intro s hs; exact ih _ (ancStep_nodup edges s hs)

lemma ancIter_mem (edges : List (String × String)) (n : ℕ) :
    ∀ s : List String, ∀ x ∈ s, x ∈ ancIter edges n s := by
  induction n with
  | zero => intro s x hx; exact hx
  | succ k ih => intro s x hx; exact ih _ _ (ancStep_mem edges s x hx)

lemma ancIter_subset (edges : List (String × String)) (nids : List String)
    (hE : ∀ e ∈ edges, e.1 ∈ nids) (n : ℕ) :
    ∀ s : List String, (∀ x ∈ s, x ∈ nids) → ∀ x ∈ ancIter edges n s, x ∈ nids := by
  induction n with
  | zero => intro s hs; exact hs
  | succ k ih => intro s hs; exact ih _ (ancStep_subset edges nids hE s hs)

lemma ancPlus_nodup (g : OboGraph) (t : String) : (ancPlus g t).Nodup :=
  ancIter_nodup g.edges g.nodes.length [t] (List.nodup_singleton t)

lemma mem_self_ancPlus (g : OboGraph) (t : String) : t ∈ ancPlus g t :=
  ancIter_mem g.edges g.nodes.length [t] t (List.mem_singleton_self t)

lemma ancPlus_subset (g : OboGraph) (t : String)
    (hE : ∀ e ∈ g.edges, e.1 ∈ g.nodeIds) (ht : t ∈ g.nodeIds) :
    ∀ x ∈ ancPlus g t, x ∈ g.nodeIds :=
  ancIter_subset g.edges g.nodeIds hE g.nodes.length [t]
    (fun x hx => by rw [List.mem_singleton.mp hx]; exact ht)

lemma parentNodes_nodup (g : OboGraph) (t : String) : (parentNodes g t).Nodup := by
  unfold parentNodes nxAncestors
  rw [List.nodup_append]
  refine ⟨(ancPlus_nodup g t).filter _, List.nodup_singleton t, ?_⟩
  intro x hx
  simp only [List.mem_filter, decide_eq_true_eq] at hx
  simp [hx.2]

lemma mem_parentNodes_iff (g : OboGraph) (t x : String) :
    x ∈ parentNodes g t ↔ x ∈ ancPlus g t := by
  unfold parentNodes nxAncestors
  simp only [List.mem_append, List.mem_filter, List.mem_singleton, decide_eq_true_eq]
  constructor
  · rintro (⟨h, _⟩ | h)
    · exact h
    · rw [h]; exact mem_self_ancPlus g t
  · intro h
    by_cases hx : x = t
    · exact Or.inr hx
    · exact Or.inl ⟨h, hx⟩

lemma graphCounts_aux (g : OboGraph) (ts : List String) (c : String → ℕ) (n : String) :
    (ts.foldl (fun c2 t =>
      if resolveAlt g t ∈ g.nodeIds then bumpList c2 (parentNodes g (resolveAlt g t)) else c2)
      c) n =
    c n + (ts.map (fun t =>
      if resolveAlt g t ∈ g.nodeIds then (parentNodes g (resolveAlt g t)).count n else 0)).sum := by
  induction ts generalizing c with
  | nil => simp
  | cons t rest ih =>
      rw [List.foldl_cons, ih, List.map_cons, List.sum_cons]
      by_cases hr : resolveAlt g t ∈ g.nodeIds
      · rw [if_pos hr, if_pos hr, bumpList_apply, Nat.add_assoc]
      · rw [if_neg hr, if_neg hr, Nat.zero_add]

lemma count_eq_ite (n : String) {l : List String} (h : l.Nodup) :
    l.count n = if n ∈ l then 1 else 0 := by
  by_cases hm : n ∈ l
  · rw [if_pos hm]
    exact List.count_eq_one_of_mem h hm
  · rw [if_neg hm]
    exact List.count_eq_zero_of_not_mem hm

lemma sum_ite_one_eq_countP (ts : List String) (p : String → Prop) [DecidablePred p] :
    (ts.map (fun t => if p t then 1 else 0)).sum = ts.countP (fun t => decide (p t)) := by
  induction ts with
  | nil => simp
  | cons t rest ih =>
      rw [List.map_cons, List.sum_cons, ih, List.countP_cons]
      by_cases hp : p t
      · simp [hp, Nat.add_comm]
      · simp [hp]

lemma graphCounts_eq (g : OboGraph) (ts : List String) (n : String) :
    graphCounts g ts n = ts.countP (fun t =>
      decide (resolveAlt g t ∈ g.nodeIds ∧ n ∈ parentNodes g (resolveAlt g t))) := by
  unfold graphCounts
  rw [graphCounts_aux]
  have hmap : ts.map (fun t =>
      if resolveAlt g t ∈ g.nodeIds then (parentNodes g (resolveAlt g t)).count n else 0) =
      ts.map (fun t =>
        if resolveAlt g t ∈ g.nodeIds ∧ n ∈ parentNodes g (resolveAlt g t) then 1 else 0) := by
    apply List.map_congr_left
    intro t _
    by_cases hr : resolveAlt g t ∈ g.nodeIds
    · rw [if_pos hr, count_eq_ite n (parentNodes_nodup g (resolveAlt g t))]
      by_cases hm : n ∈ parentNodes g (resolveAlt g t)
      · rw [if_pos hm, if_pos ⟨hr, hm⟩]
      · rw [if_neg hm, if_neg (fun hc => hm hc.2)]
    · rw [if_neg hr, if_neg (fun hc => hr hc.1)]
  rw [hmap, sum_ite_one_eq_countP ts
    (fun t => resolveAlt g t ∈ g.nodeIds ∧ n ∈ parentNodes g (resolveAlt g t)), Nat.zero_add]

/-- C5: for `hpo_id_as_label = true`, the node set of `get_graph(S)` is exactly
the union over the terms of `S` that resolve to a graph node (directly or via
the alternate-id scan) of `{resolved term} ∪ ancestors(resolved term)`, and
every node's `present_in_patient` counter equals the number of terms of `S`
that contributed it. -/
theorem get_graph_nodes_counts (g : OboGraph) (terms : List String)
    (hwf : ∀ e ∈ g.edges, e.1 ∈ g.nodeIds) :
    (∀ n, n ∈ (get_graph g terms true).1.nodeIds ↔
      ∃ t ∈ terms, resolveAlt g t ∈ g.nodeIds ∧
        (n = resolveAlt g t ∨ n ∈ nxAncestors g (resolveAlt g t))) ∧
    (∀ n, (get_graph g terms true).2 n =
      terms.countP (fun t => decide (resolveAlt g t ∈ g.nodeIds ∧
        n ∈ parentNodes g (resolveAlt g t)))) := by
  have hpn : ∀ t n, (n = resolveAlt g t ∨ n ∈ nxAncestors g (resolveAlt g t)) ↔
      n ∈ parentNodes g (resolveAlt g t) := by
    intro t n
    unfold parentNodes
    simp only [List.mem_append, List.mem_singleton]
    tauto
  constructor
  · intro n
    have hnodes : (get_graph g terms true).1.nodeIds =
        (g.nodes.filter (fun nd => decide (graphCounts g terms nd.id ≠ 0))).map OboNode.id :=
      rfl
    rw [hnodes]
    simp only [List.mem_map, List.mem_filter, decide_eq_true_eq]
    constructor
    · rintro ⟨nd, ⟨hnd, hcnt⟩, hid⟩
      rw [graphCounts_eq] at hcnt
      have hex := List.countP_pos_iff.mp (Nat.pos_of_ne_zero hcnt)
      obtain ⟨t, ht, hp⟩ := hex
      rw [decide_eq_true_eq] at hp
      subst hid
      exact ⟨t, ht, hp.1, (hpn t nd.id).mpr hp.2⟩
    · rintro ⟨t, ht, hres, hmem⟩
      have hm : n ∈ parentNodes g (resolveAlt g t) := (hpn t n).mp hmem
      have hn : n ∈ g.nodeIds := by
        have := (mem_parentNodes_iff g (resolveAlt g t) n).mp hm
        exact ancPlus_subset g (resolveAlt g t) hwf hres n this
      obtain ⟨nd, hnd, hid⟩ := List.mem_map.mp hn
      refine ⟨nd, ⟨hnd, ?_⟩, hid⟩
      rw [graphCounts_eq]
      intro hzero
      have : ¬∃ t ∈ terms, (fun t => decide (resolveAlt g t ∈ g.nodeIds ∧
          nd.id ∈ parentNodes g (resolveAlt g t))) t = true := by
        intro hex
        have := List.countP_pos_iff.mpr hex
        omega
      apply this
      refine ⟨t, ht, ?_⟩
      rw [decide_eq_true_eq]
      rw [hid]
      exact ⟨hres, hm⟩
  · intro n
    have : (get_graph g terms true).2 = graphCounts g terms := rfl
    rw [this, graphCounts_eq]

/-- Witness for C5 at the two-node ontology `gC` and the term list
`["HP:0000002"]` (whose ancestor closure is both nodes). -/
theorem get_graph_nodes_counts_witness :
    (∀ e ∈ gC.edges, e.1 ∈ gC.nodeIds) ∧
    ("HP:0000001" ∈ (get_graph gC ["HP:0000002"] true).1.nodeIds ↔
      ∃ t ∈ ["HP:0000002"], resolveAlt gC t ∈ gC.nodeIds ∧
        ("HP:0000001" = resolveAlt gC t ∨ "HP:0000001" ∈ nxAncestors gC (resolveAlt gC t))) :=
  ⟨by decide, (get_graph_nodes_counts gC ["HP:0000002"] (by decide)).1 "HP:0000001"⟩

/-- The `(key, value)` writes performed for one node by the synonym/alt-id loop
of `_init_calc_similarity`: synonyms map to the node id, alternate ids map to
the node name, in source order. -/
def synAltPairs (nd : OboNode) : List (String × String) :=
  (match nd.synonyms with
   | some syns => syns.map (fun syn => (syn, nd.id))
   | none => []) ++
  (match nd.alt_id with
   | some alts => alts.map (fun a => (a, nd.name))
   | none => [])

/-- All `(key, value)` writes of the synonym/alt-id loop, in execution order. -/
def synAltWrites : List OboNode → List (String × String)
  | [] => []
  | nd :: rest => synAltPairs nd ++ synAltWrites rest

/-- Fold a list of `(key, value)` writes into a dict. -/
def dfoldInsert (ps : List (String × String)) (d : Dict) : Dict :=
  ps.foldl (fun d2 p => dinsert d2 p.1 p.2) d

lemma dfoldInsert_append (a b : List (String × String)) (d : Dict) :
    dfoldInsert (a ++ b) d = dfoldInsert b (dfoldInsert a d) := by
  unfold dfoldInsert
  rw [List.foldl_append]

lemma initAlias_eq_writes (full : OboGraph) :
    initAlias full = dfoldInsert (synAltWrites full.nodes) (mergedNameId full) := by
  unfold initAlias
  generalize mergedNameId full = d0
  induction full.nodes generalizing d0 with
  | nil => rfl
  | cons nd rest ih =>
      rw [List.foldl_cons, synAltWrites, dfoldInsert_append, ← ih]
      have hstep : (let d1 := match nd.synonyms with
          | some syns => syns.foldl (fun d2 syn => dinsert d2 syn nd.id) d0
          | none => d0
        match nd.alt_id with
          | some alts => alts.foldl (fun d2 a => dinsert d2 a nd.name) d1
          | none => d1) = dfoldInsert (synAltPairs nd) d0 := by
        unfold synAltPairs dfoldInsert
        rw [List.foldl_append]
        cases nd.synonyms with
        | none =>
            cases nd.alt_id with
            | none => rfl
            | some alts => simp [List.foldl_map]
        | some syns =>
            cases nd.alt_id with
            | none => simp [List.foldl_map]
            | some alts => simp [List.foldl_map]
      rw [hstep]

lemma dlookup_dinsert_self (d : Dict) (k v : String) :
    dlookup (dinsert d k v) k = some v := by
  induction d with
  | nil => simp [dinsert, dlookup]
  | cons p rest ih =>
      rw [dinsert]
      by_cases hk : p.1 = k
      · rw [if_pos hk, dlookup, if_pos rfl]
      · rw [if_neg hk, dlookup, if_neg (fun h => hk h.symm)]
        exact ih

lemma dlookup_dinsert_ne (d : Dict) (k k' v : String) (h : k ≠ k') :
    dlookup (dinsert d k' v) k = dlookup d k := by
  induction d with
  | nil => simp [dinsert, dlookup, h]
  | cons p rest ih =>
      rw [dinsert]
      by_cases hk : p.1 = k'
      · rw [if_pos hk, dlookup, if_neg (fun h2 => h h2), dlookup, if_neg]
        rw [hk]
        exact h
      · rw [if_neg hk, dlookup, dlookup]
        by_cases hpk : k = p.1
        · rw [if_pos hpk, if_pos hpk]
        · rw [if_neg hpk, if_neg hpk]
          exact ih

lemma dlookup_dfoldInsert (ps : List (String × String)) (d : Dict) (k : String) :
    dlookup (dfoldInsert ps d) k =
      match ps.reverse.find? (fun p => p.1 == k) with
      | some p => some p.2
      | none => dlookup d k := by
  induction ps generalizing d with
  | nil => rfl
  | cons p rest ih =>
      show dlookup (dfoldInsert rest (dinsert d p.1 p.2)) k = _
      rw [ih]
      rw [List.reverse_cons, List.find?_append]
      cases hf : rest.reverse.find? (fun q => q.1 == k) with
      | some q => simp [hf]
      | none =>
          simp only [hf, Option.none_orElse]
          by_cases hk : p.1 = k
          · subst hk
            simp [List.find?, dlookup_dinsert_self]
          · have hbeq : (p.1 == k) = false := by simp [hk]
            simp [List.find?, hbeq, dlookup_dinsert_ne d k p.1 p.2 (fun h => hk h.symm)]

lemma find?_eq_of_countP_one (ps : List (String × String)) (k v : String)
    (h1 : ps.countP (fun p => p.1 == k) = 1) (h2 : (k, v) ∈ ps) :
    ps.find? (fun p => p.1 == k) = some (k, v) := by
  induction ps with
  | nil => cases h2
  | cons q rest ih =>
      by_cases hq : q.1 = k
      · have hbeq : (q.1 == k) = true := by simp [hq]
        rw [List.countP_cons, hbeq] at h1
        simp only [if_true] at h1
        have hrest : rest.countP (fun p => p.1 == k) = 0 := by omega
        have hqv : q = (k, v) := by
          rcases List.mem_cons.mp h2 with h | h
          · exact h.symm
          · exfalso
            have hpos : 0 < rest.countP (fun p => p.1 == k) :=
              List.countP_pos_iff.mpr ⟨(k, v), h, by simp⟩
            omega
        subst hqv
        rw [List.find?_cons]
        simp
      · have hbeq : (q.1 == k) = false := by simp [hq]
        rw [List.countP_cons, hbeq] at h1
        simp only [Bool.false_eq_true, if_false] at h1
        have h2x : (k, v) ∈ rest := by
          rcases List.mem_cons.mp h2 with h | h
          · exfalso; apply hq; rw [← h]
          · exact h
        rw [List.find?_cons]
        simp only [hbeq]
        exact ih (by omega) h2x

lemma mem_synAltWrites_syn (nodes : List OboNode) (nd : OboNode) (hnd : nd ∈ nodes)
    (syn : String) (hsyn : syn ∈ nd.synonyms.getD []) :
    (syn, nd.id) ∈ synAltWrites nodes := by
  induction nodes with
  | nil => cases hnd
  | cons hd rest ih =>
      rw [synAltWrites]
      rcases List.mem_cons.mp hnd with h | h
      · subst h
        apply List.mem_append_left
        unfold synAltPairs
        apply List.mem_append_left
        cases hs : nd.synonyms with
        | none => rw [hs] at hsyn; cases hsyn
        | some l =>
            rw [hs] at hsyn
            simp only [Option.getD_some] at hsyn
            exact List.mem_map.mpr ⟨syn, hsyn, rfl⟩
      · exact List.mem_append_right _ (ih h)

lemma mem_synAltWrites_alt (nodes : List OboNode) (nd : OboNode) (hnd : nd ∈ nodes)
    (a : String) (ha : a ∈ nd.alt_id.getD []) :
    (a, nd.name) ∈ synAltWrites nodes := by
  induction nodes with
  | nil => cases hnd
  | cons hd rest ih =>
      rw [synAltWrites]
      rcases List.mem_cons.mp hnd with h | h
      · subst h
        apply List.mem_append_left
        unfold synAltPairs
        apply List.mem_append_right
        cases hs : nd.alt_id with
        | none => rw [hs] at ha; cases ha
        | some l =>
            rw [hs] at ha
            simp only [Option.getD_some] at ha
            exact List.mem_map.mpr ⟨a, ha, rfl⟩
      · exact List.mem_append_right _ (ih h)

lemma dlookup_initAlias_of_unique_write (full : OboGraph) (k v : String)
    (h1 : (synAltWrites full.nodes).countP (fun p => p.1 == k) = 1)
    (h2 : (k, v) ∈ synAltWrites full.nodes) :
    dlookup (initAlias full) k = some v := by
  rw [initAlias_eq_writes, dlookup_dfoldInsert]
  have hc : (synAltWrites full.nodes).reverse.countP (fun p => p.1 == k) = 1 := by
    rw [(List.reverse_perm (synAltWrites full.nodes)).countP_eq]
    exact h1
  have hm : (k, v) ∈ (synAltWrites full.nodes).reverse := List.mem_reverse.mpr h2
  rw [find?_eq_of_countP_one _ k v hc hm]

/-- C9 (amended): in the alias index built by `_init_calc_similarity`, a
synonym written exactly once maps to the canonical id of the node listing it,
while a deprecated alternate id written exactly once maps to the display NAME
of the node it aliases (not to its canonical id). -/
theorem initAlias_syn_id_alt_name (full : OboGraph) (nd : OboNode) (hnd : nd ∈ full.nodes) :
    (∀ syn ∈ nd.synonyms.getD [],
      (synAltWrites full.nodes).countP (fun p => p.1 == syn) = 1 →
      dlookup (initAlias full) syn = some nd.id) ∧
    (∀ a ∈ nd.alt_id.getD [],
      (synAltWrites full.nodes).countP (fun p => p.1 == a) = 1 →
      dlookup (initAlias full) a = some nd.name) :=
  ⟨fun syn hsyn h1 => dlookup_initAlias_of_unique_write full syn nd.id h1
      (mem_synAltWrites_syn full.nodes nd hnd syn hsyn),
   fun a ha h1 => dlookup_initAlias_of_unique_write full a nd.name h1
      (mem_synAltWrites_alt full.nodes nd hnd a ha)⟩

/-- A one-node ontology with a synonym and a deprecated alternate id. -/
def g9 : OboGraph := ⟨[⟨"HP:0000001", "Root", some ["big head"], some ["HP:0000099"]⟩], []⟩

/-- Witness for C9's amended theorem on `g9`. -/
theorem initAlias_syn_id_alt_name_witness :
    ((synAltWrites g9.nodes).countP (fun p => p.1 == "big head") = 1 ∧
     (synAltWrites g9.nodes).countP (fun p => p.1 == "HP:0000099") = 1) ∧
    dlookup (initAlias g9) "big head" = some "HP:0000001" ∧
    dlookup (initAlias g9) "HP:0000099" = some "Root" :=
  ⟨⟨by decide, by decide⟩,
   (initAlias_syn_id_alt_name g9 ⟨"HP:0000001", "Root", some ["big head"], some ["HP:0000099"]⟩
      (by decide)).1 "big head" (by decide) (by decide),
   (initAlias_syn_id_alt_name g9 ⟨"HP:0000001", "Root", some ["big head"], some ["HP:0000099"]⟩
      (by decide)).2 "HP:0000099" (by decide) (by decide)⟩

/-- C9 counterexample: the alternate id `HP:0000099` of node `HP:0000001` is
mapped by the constructed alias index to the node's display name `"Root"`,
which is not a canonical ontology id of the graph at all — refuting the claim
that every deprecated alternate id maps to a canonical id. -/
theorem initAlias_alt_maps_to_display_name :
    dlookup (initAlias g9) "HP:0000099" = some "Root" ∧ "Root" ∉ g9.nodeIds := by
  decide

lemma dinsert_noop (d : Dict) (k v : String) (h : dlookup d k = some v) :
    dinsert d k v = d := by
  induction d with
  | nil => cases h
  | cons p rest ih =>
      rw [dlookup] at h
      rw [dinsert]
      by_cases hk : p.1 = k
      · rw [if_pos hk]
        rw [if_pos hk.symm] at h
        have hv : v = p.2 := (Option.some.injEq _ _).mp h.symm
        rw [hv, ← hk]
      · rw [if_neg hk]
        rw [if_neg (fun h2 => hk h2.symm)] at h
        rw [ih h]

lemma foldl_dinsert_noop (alts : List String) (nm : String) (d : Dict)
    (h : ∀ a ∈ alts, dlookup d a = some nm) :
    alts.foldl (fun d2 a => dinsert d2 a nm) d = d := by
  induction alts with
  | nil => rfl
  | cons a rest ih =>
      rw [List.foldl_cons, dinsert_noop d a nm (h a (List.mem_cons_self a rest))]
      exact ih (fun a2 ha2 => h a2 (List.mem_cons_of_mem a ha2))

lemma writeAlts_noop (nodes : List OboNode) (d : Dict)
    (h : ∀ nd ∈ nodes, ∀ a ∈ nd.alt_id.getD [], dlookup d a = some nd.name) :
    nodes.foldl (fun acc nd =>
      match nd.alt_id with
      | some alts => alts.foldl (fun acc2 a => dinsert acc2 a nd.name) acc
      | none => acc) d = d := by
  induction nodes with
  | nil => rfl
  | cons nd rest ih =>
      rw [List.foldl_cons]
      have hstep : (match nd.alt_id with
          | some alts => alts.foldl (fun acc2 a => dinsert acc2 a nd.name) d
          | none => d) = d := by
        cases halt : nd.alt_id with
        | none => rfl
        | some alts =>
            apply foldl_dinsert_noop
            intro a ha
            have := h nd (List.mem_cons_self nd rest) a
            rw [halt] at this
            exact this ha
      rw [hstep]
      exact ih (fun nd2 hnd2 => h nd2 (List.mem_cons_of_mem nd hnd2))

/-- C10 (amended): `filter_hpo_df` (and `calc_full_sim_mat`, which calls it)
never changes the shared ontology graph, and leaves the shared alias index
unchanged precisely when every alternate id of the scorer's network already
maps to its node's display name (as holds when the phenopy network agrees with
the full obo graph the index was built from); `get_graph` operates on a deep
copy and `calc_similarity` / `calc_sim_scores` only read, so they are embedded
as pure functions of the state. -/
theorem engine_preserves_shared_state (s : String → String → ℚ) (st : SimState)
    (df : HpoDf) (x : List (List String))
    (hcons : ∀ nd ∈ st.hpo_network.nodes, ∀ a ∈ nd.alt_id.getD [],
      dlookup st.name_to_id_and_reverse a = some nd.name) :
    (filter_hpo_df st df).2.hpo_network = st.hpo_network ∧
    (calc_full_sim_mat s st x).2.hpo_network = st.hpo_network ∧
    (filter_hpo_df st df).2 = st ∧
    (calc_full_sim_mat s st x).2 = st := by
  have hw : writeAlts st.hpo_network st.name_to_id_and_reverse =
      st.name_to_id_and_reverse :=
    writeAlts_noop st.hpo_network.nodes st.name_to_id_and_reverse hcons
  have hst : ∀ df2, (filter_hpo_df st df2).2 = st := by
    intro df2
    show (⟨st.hpo_network, writeAlts st.hpo_network st.name_to_id_and_reverse⟩ : SimState) = st
    rw [hw]
  exact ⟨by rw [hst df], by show (filter_hpo_df st (HpoDf.arr x)).2.hpo_network = _; rw [hst],
    hst df, by show (filter_hpo_df st (HpoDf.arr x)).2 = st; rw [hst]⟩

/-- Witness for C10's amended theorem: a state built by `_init_calc_similarity`
from consistent full/phenopy graphs is left unchanged by `filter_hpo_df`. -/
theorem engine_preserves_shared_state_witness :
    (∀ nd ∈ (init_calc_similarity g9 g9).hpo_network.nodes, ∀ a ∈ nd.alt_id.getD [],
      dlookup (init_calc_similarity g9 g9).name_to_id_and_reverse a = some nd.name) ∧
    (filter_hpo_df (init_calc_similarity g9 g9) (HpoDf.lst [])).2 =
      init_calc_similarity g9 g9 :=
  ⟨by decide,
   (engine_preserves_shared_state (fun _ _ => 1) (init_calc_similarity g9 g9)
      (HpoDf.lst []) [] (by decide)).2.2.1⟩

/-- Full obo graph that does not know the alternate id `HP:0000099`. -/
def gFull10 : OboGraph := ⟨[⟨"HP:0000001", "Root", none, none⟩], []⟩

/-- Scorer network that lists `HP:0000099` as an alternate id. -/
def gPheno10 : OboGraph := ⟨[⟨"HP:0000001", "Root", none, some ["HP:0000099"]⟩], []⟩

/-- C10 counterexample: `filter_hpo_df` writes the alt-id entries of the
scorer's network into the shared alias index (lines 273-277), so it MUTATES
`self.name_to_id_and_reverse`: on an initialized state whose alias index lacks
one of those alt ids, the index after the call differs from the one before. -/
theorem filter_hpo_df_mutates_alias :
    (filter_hpo_df (init_calc_similarity gFull10 gPheno10) (HpoDf.lst [])).2 ≠
      init_calc_similarity gFull10 gPheno10 := by
  decide
